import Mathlib

/-!
Verification of the `@inkrypt/crypto` primitives layer.

The development shallowly embeds the repository's composition layer:
* the URL-safe base64 codec (`toBase64Url` / `fromBase64`, from `base64.ts`,
  which wraps the standard unpadded URL-safe base64 algorithm),
* the AEAD engine (`encryptMessage` / `decryptMessage`, from `aead.ts`),
* the post-quantum signature wrappers (`sign` / `verifySignature`, from
  `signature.ts`),
* random-ID generation (`getRandomBytes` / `generateId`, from `random.ts`).

The underlying cryptographic primitives (XChaCha20-Poly1305, KMAC-256,
ML-DSA-87, JSON canonicalization, the OS random source and the JS UTF-8
encoder/decoder) are external trusted libraries, not code of this
repository; they are modelled as fields of a `Prims` record, and theorems
assume only their documented contracts (output lengths, AEAD round-trip,
UTF-8 round-trip).  Bytes are modelled as natural numbers; a well-formed
byte is `< 256`.
-/

namespace Inkrypt

/-- Byte sequences (`Uint8Array`) are modelled as lists of naturals. -/
abbrev Bytes := List Nat

/-! ## Codec: URL-safe unpadded base64 (`base64.ts`) -/

/-- The URL-safe base64 alphabet, index 0–63: `A`–`Z`, `a`–`z`, `0`–`9`, `-`, `_`. -/
def B64_ALPHABET : List Char :=
  "ABCDEFGHIJKLMNOPQRSTUVWXYZabcdefghijklmnopqrstuvwxyz0123456789-_".toList

/-- Character for a sextet value (0–63). -/
def b64Char (s : Nat) : Char := B64_ALPHABET.getD s 'A'

/-- `true` iff `c` lies in the URL-safe alphabet `[A-Za-z0-9_-]`. -/
def isBase64UrlChar (c : Char) : Bool :=
  ('A' ≤ c && c ≤ 'Z') || ('a' ≤ c && c ≤ 'z') || ('0' ≤ c && c ≤ '9') ||
    c = '-' || c = '_'

/-- Split a byte list into base64 sextets (unpadded encoding). -/
def encodeB64 : Bytes → List Nat
  | [] => []
  | [b0] => [b0 / 4, b0 % 4 * 16]
  | [b0, b1] => [b0 / 4, b0 % 4 * 16 + b1 / 16, b1 % 16 * 4]
  | b0 :: b1 :: b2 :: rest =>
      b0 / 4 :: (b0 % 4 * 16 + b1 / 16) :: (b1 % 16 * 4 + b2 / 64) :: b2 % 64 ::
        encodeB64 rest

/-- `toBase64Url` (from `base64.ts`): URL-safe base64 without padding. -/
def toBase64Url (u8a : Bytes) : String := String.mk ((encodeB64 u8a).map b64Char)

/-- Sextet value of a base64 character; accepts both the standard (`+`, `/`)
and the URL-safe (`-`, `_`) alphabets. -/
def decodeB64Char (c : Char) : Option Nat :=
  if 'A' ≤ c ∧ c ≤ 'Z' then some (c.toNat - 65)
  else if 'a' ≤ c ∧ c ≤ 'z' then some (c.toNat - 97 + 26)
  else if '0' ≤ c ∧ c ≤ '9' then some (c.toNat - 48 + 52)
  else if c = '+' ∨ c = '-' then some 62
  else if c = '/' ∨ c = '_' then some 63
  else none

/-- Reassemble bytes from base64 sextets; a single trailing sextet is
malformed input (as for the JS decoder). -/
def sextetsToBytes : List Nat → Option Bytes
  | [] => some []
  | [_] => none
  | [s0, s1] => some [s0 * 4 + s1 / 16]
  | [s0, s1, s2] => some [s0 * 4 + s1 / 16, s1 % 16 * 16 + s2 / 4]
  | s0 :: s1 :: s2 :: s3 :: rest =>
      (sextetsToBytes rest).map
        (fun bs =>
          (s0 * 4 + s1 / 16) :: (s1 % 16 * 16 + s2 / 4) :: (s2 % 4 * 64 + s3) :: bs)

/-- `fromBase64` (from `base64.ts`): decodes padded or unpadded base64, in
either alphabet; `none` models the decoder throwing on malformed input. -/
def fromBase64 (b64 : String) : Option Bytes :=
  ((b64.data.takeWhile (fun c => c ≠ '=')).mapM decodeB64Char).bind sextetsToBytes

/-! ## Data model -/

/-- `KEY_SIZE` from `aead.ts`. -/
def KEY_SIZE : Nat := 32

/-- `NONCE_SIZE` from `aead.ts` (XChaCha20 nonce). -/
def NONCE_SIZE : Nat := 24

/-- `ROBUSTNESS_TAG_SIZE` from `aead.ts`. -/
def ROBUSTNESS_TAG_SIZE : Nat := 32

/-- The typed error surface of the layer: `encryptMessage` throws on a
wrong-size key, `decryptMessage` throws on robustness-tag mismatch or
(via the cipher) on AEAD decryption failure, `sign` throws on
non-canonicalizable content.  The source has no other throw site; in
particular there is no nonce-length error. -/
inductive CryptoError
  | invalidKeySize
  | tagMismatch
  | decryptionFailure
  | invalidContent
deriving DecidableEq, Repr

instance {ε α : Type} [DecidableEq ε] [DecidableEq α] : DecidableEq (Except ε α)
  | .ok a, .ok b => decidable_of_iff (a = b) (by simp)
  | .ok _, .error _ => .isFalse (by simp)
  | .error _, .ok _ => .isFalse (by simp)
  | .error a, .error b => decidable_of_iff (a = b) (by simp)

/-- `message: string | Uint8Array` parameter of `encryptMessage`. -/
inductive Message
  | str (s : String)
  | bytes (b : Bytes)
deriving DecidableEq, Repr

/-- A value of a `Record<string, string | number>` signable content map.
JS numbers include the non-finite values `NaN` and `±Infinity`, which are
valid members of the TypeScript type; the `canonicalize` package throws
on them rather than returning a value. -/
inductive CVal
  | str (s : String)
  | num (n : Int)
  | nan
  | inf
deriving DecidableEq, Repr

/-- `true` iff the value is an IEEE-754 non-finite number, on which the
`canonicalize` package throws instead of returning a string. -/
def CVal.isNonFinite : CVal → Bool
  | .nan => true
  | .inf => true
  | .str _ => false
  | .num _ => false

/-- `SignableContent`: a mapping of string keys to string/number values. -/
abbrev Content := List (String × CVal)

/-- The trusted external primitives (noble libraries, the JS runtime's
UTF-8 codec, the OS random source and the `canonicalize` package).  They
are not code of this repository; theorems assume only their documented
contracts. -/
structure Prims where
  /-- `randomBytes` from `@noble/hashes/utils` (OS CSPRNG; modelled as a
  function of the requested length). -/
  randomBytes : Nat → Bytes
  /-- `new TextEncoder().encode` (UTF-8). -/
  utf8Encode : String → Bytes
  /-- `new TextDecoder().decode` (UTF-8, total). -/
  utf8Decode : Bytes → String
  /-- `kmac256` from `@noble/hashes/sha3-addons`:
  key, message, output length (`dkLen`), personalization. -/
  kmac256 : Bytes → Bytes → Nat → Bytes → Bytes
  /-- `xchacha20poly1305(key, nonce, aad).encrypt`: the output embeds the
  cipher's own 16-byte Poly1305 tag, opaque to this layer.  The library
  additionally validates its inputs on construction (it throws on a
  non-24-byte nonce); that throw happens inside the library, not in this
  layer's code, and theorems about the layer's own behavior with
  off-size nonces are therefore confined to `decryptMessage`, which never
  reaches the cipher when the robustness tag mismatches. -/
  aeadEncrypt : Bytes → Bytes → Bytes → Bytes → Bytes
  /-- `xchacha20poly1305(key, nonce, aad).decrypt`; `none` models the
  cipher throwing on its native tag failure. -/
  aeadDecrypt : Bytes → Bytes → Bytes → Bytes → Option Bytes
  /-- `canonicalize` (RFC 8785 JSON canonicalization); `none` models a
  non-string return value.  The package's throw on non-finite numbers is
  value-determined and tracked separately by `verifySignatureCall`. -/
  canonicalize : Content → Option String
  /-- `ml_dsa87.keygen()`: returns `(secretKey, publicKey)`. -/
  mlDsaKeygen : Bytes × Bytes
  /-- `ml_dsa87.sign(message, privateKey)`. -/
  mlDsaSign : Bytes → Bytes → Bytes
  /-- `ml_dsa87.verify(signature, message, publicKey)`, as called with a
  well-formed public key; the library's throw on a wrong-length public
  key is tracked separately by `verifySignatureCall`. -/
  mlDsaVerify : Bytes → Bytes → Bytes → Bool

/-- Step 3 of `encryptMessage`: UTF-8 encode a string message, pass bytes
through. -/
def messageToBytes (P : Prims) : Message → Bytes
  | .str s => P.utf8Encode s
  | .bytes b => b

/-- Result record of `encryptMessage`. -/
structure EncryptResult where
  ciphertext : Bytes
  key : Bytes
  nonce : Bytes
deriving DecidableEq, Repr

/-- The robustness-tag input
`toBase64Url(nonce) + toBase64Url(aeadCiphertext) + additionalData`,
UTF-8 encoded (`aead.ts` lines 51–53 and 97–98). -/
def robustnessTagInput (P : Prims) (nonce ciphertext : Bytes)
    (additionalData : String) : Bytes :=
  P.utf8Encode (toBase64Url nonce ++ toBase64Url ciphertext ++ additionalData)

/-- The KMAC-256 robustness tag: 32-byte output, personalization
`"RobustnessTag-v1"` (`aead.ts` lines 54–57 and 100–103). -/
def computeRobustnessTag (P : Prims) (key nonce ciphertext : Bytes)
    (additionalData : String) : Bytes :=
  P.kmac256 key (robustnessTagInput P nonce ciphertext additionalData)
    ROBUSTNESS_TAG_SIZE (P.utf8Encode "RobustnessTag-v1")

/-- `encryptMessage` from `aead.ts`: generate key/nonce when omitted,
reject a key whose length is not 32, AEAD-encrypt, prepend the KMAC-256
robustness tag. -/
def encryptMessage (P : Prims) (message : Message) (additionalData : String)
    (key : Option Bytes) (nonce : Option Bytes) :
    Except CryptoError EncryptResult :=
  let encryptionKey := key.getD (P.randomBytes KEY_SIZE)
  let encryptionNonce := nonce.getD (P.randomBytes NONCE_SIZE)
  if encryptionKey.length ≠ KEY_SIZE then
    .error .invalidKeySize
  else
    let messageBytes := messageToBytes P message
    let additionalDataBytes := P.utf8Encode additionalData
    let ciphertext :=
      P.aeadEncrypt encryptionKey encryptionNonce additionalDataBytes messageBytes
    let robustnessTag :=
      computeRobustnessTag P encryptionKey encryptionNonce ciphertext additionalData
    .ok ⟨robustnessTag ++ ciphertext, encryptionKey, encryptionNonce⟩

/-- `equalBytes` from `@noble/ciphers/utils`: true iff same length and
same contents, i.e. byte-sequence equality (its constant-time execution
is a timing property outside the functional model). -/
def equalBytes (a b : Bytes) : Bool := a == b

/-- `decryptMessage` from `aead.ts`: split off the first 32 bytes as the
received tag, recompute the expected tag, compare, and only on a match
run AEAD decryption and UTF-8-decode the plaintext. -/
def decryptMessage (P : Prims) (combinedCiphertext : Bytes)
    (additionalData : String) (key nonce : Bytes) :
    Except CryptoError String :=
  let additionalDataBytes := P.utf8Encode additionalData
  let robustnessTag := combinedCiphertext.take ROBUSTNESS_TAG_SIZE
  let ciphertext := combinedCiphertext.drop ROBUSTNESS_TAG_SIZE
  let expectedTag := computeRobustnessTag P key nonce ciphertext additionalData
  let tagMatch := equalBytes robustnessTag expectedTag
  if !tagMatch then
    .error .tagMismatch
  else
    match P.aeadDecrypt key nonce additionalDataBytes ciphertext with
    | none => .error .decryptionFailure
    | some decrypted => .ok (P.utf8Decode decrypted)

/-! ## Signer (`signature.ts`) -/

/-- `generatePqcSignatureKeyPair`: ML-DSA-87 keygen. -/
def generatePqcSignatureKeyPair (P : Prims) : Bytes × Bytes := P.mlDsaKeygen

/-- `sign` from `signature.ts`: canonicalize, prepend the context string
with no separator, UTF-8 encode, ML-DSA-sign. -/
def sign (P : Prims) (content : Content) (signatureContext : String)
    (privateKey : Bytes) : Except CryptoError Bytes :=
  match P.canonicalize content with
  | none => .error .invalidContent
  | some serializedContent =>
      .ok (P.mlDsaSign (P.utf8Encode (signatureContext ++ serializedContent))
        privateKey)

/-- `verifySignature` from `signature.ts`: canonicalization failure yields
`false`; otherwise the ML-DSA verification boolean is returned directly. -/
def verifySignature (P : Prims) (content : Content) (signatureContext : String)
    (signature : Bytes) (publicKey : Bytes) : Bool :=
  match P.canonicalize content with
  | none => false
  | some serializedContent =>
      P.mlDsaVerify signature
        (P.utf8Encode (signatureContext ++ serializedContent)) publicKey

/-- An uncaught JavaScript exception propagating out of a library call
made by `verifySignature`, which contains no try/catch. -/
inductive JsException
  | canonicalizeNonFinite
  | invalidPublicKeySize
deriving DecidableEq, Repr

/-- ML-DSA-87 public keys are 2592 bytes; `ml_dsa87.verify` throws on any
other length before reaching its graceful `false` paths. -/
def ML_DSA_87_PUBLIC_KEY_SIZE : Nat := 2592

/-- Call semantics of `verifySignature` with the callees' exceptions
tracked instead of collapsed: the `canonicalize` package throws on
content containing a non-finite number, and `ml_dsa87.verify` throws on
a wrong-length public key; `signature.ts` catches neither, so both
propagate to the caller.  On the exception-free paths the call returns
the boolean computed by `verifySignature`. -/
def verifySignatureCall (P : Prims) (content : Content)
    (signatureContext : String) (signature : Bytes) (publicKey : Bytes) :
    Except JsException Bool :=
  if content.any (fun kv => kv.2.isNonFinite) then
    .error .canonicalizeNonFinite
  else
    match P.canonicalize content with
    | none => .ok false
    | some serializedContent =>
        if publicKey.length ≠ ML_DSA_87_PUBLIC_KEY_SIZE then
          .error .invalidPublicKeySize
        else
          .ok (P.mlDsaVerify signature
            (P.utf8Encode (signatureContext ++ serializedContent)) publicKey)

/-! ## RandomSource (`random.ts`) -/

/-- `ID_BYTES_LENGTH` from `random.ts`: default 24 bytes → 32 characters. -/
def ID_BYTES_LENGTH : Nat := 24

/-- `getRandomBytes` (the TS default argument is 32). -/
def getRandomBytes (P : Prims) (bytesLength : Nat) : Bytes :=
  P.randomBytes bytesLength

/-- `generateId` (the TS default argument is `ID_BYTES_LENGTH`). -/
def generateId (P : Prims) (bytesLength : Nat) : String :=
  toBase64Url (getRandomBytes P bytesLength)

/-- Flip the bits selected by `mask` inside byte `j` of a byte sequence
(`corruptedCiphertext[j] ^= mask` in the tests). -/
def flipByte (bs : Bytes) (j : Nat) (mask : Nat) : Bytes :=
  bs.set j (bs.getD j 0 ^^^ mask)

/-! ## A toy instantiation of the trusted primitives

Used only to evaluate the theorems on concrete inputs: each field is an
arbitrary computable function satisfying the library contracts the
theorems assume (output lengths, AEAD round-trip, UTF-8 round-trip,
idealized signature verification).  The canonicalization field is made
to fail on the empty mapping so the defensive canonicalization-failure
branches are exercisable. -/

/-- Toy stand-in for the cipher's native 16-byte Poly1305 tag. -/
def cNativeTag (key nonce aad msg : Bytes) : Bytes :=
  (List.range 16).map
    (fun i => (key.sum + 2 * nonce.sum + 3 * aad.sum + 5 * msg.sum + i) % 256)

def concretePrims : Prims where
  randomBytes n := (List.range n).map (fun i => (7 * i + 3) % 256)
  utf8Encode s := s.data.map Char.toNat
  utf8Decode bs := String.mk (bs.map Char.ofNat)
  kmac256 key msg d pers :=
    (List.range d).map (fun i => (key.sum + msg.sum + 2 * pers.sum + 3 * i) % 256)
  aeadEncrypt key nonce aad msg := msg ++ cNativeTag key nonce aad msg
  aeadDecrypt key nonce aad ct :=
    if 16 ≤ ct.length then
      let msg := ct.take (ct.length - 16)
      if ct.drop (ct.length - 16) = cNativeTag key nonce aad msg then some msg
      else none
    else none
  canonicalize content :=
    if content.length = 0 then none else some (toString content.length)
  mlDsaKeygen := ([], [])
  mlDsaSign msg _sk := msg
  mlDsaVerify sig msg _pk := sig == msg

example : toBase64Url [72, 105] = "SGk" := by decide
example : fromBase64 "SGk" = some [72, 105] := by decide
example : fromBase64 "SGk=" = some [72, 105] := by decide
example : toBase64Url [] = "" := by decide
example : toBase64Url [251, 255, 190] = "-_--" := by decide

/-! ### Codec lemmas -/

theorem encodeB64_length (bs : Bytes) :
    (encodeB64 bs).length = (4 * bs.length + 2) / 3 := by
  induction bs using encodeB64.induct with
  | case1 => simp [encodeB64]
  | case2 b0 => simp [encodeB64]
  | case3 b0 b1 => simp [encodeB64]
  | case4 b0 b1 b2 rest ih => simp [encodeB64, ih]; omega

theorem encodeB64_lt_64 (bs : Bytes) (hb : ∀ b ∈ bs, b < 256) :
    ∀ s ∈ encodeB64 bs, s < 64 := by
  induction bs using encodeB64.induct with
  | case1 => simp [encodeB64]
  | case2 b0 =>
      have := hb b0 (by simp)
      simp only [encodeB64, List.mem_cons, List.not_mem_nil, or_false]
      rintro s (rfl | rfl) <;> omega
  | case3 b0 b1 =>
      have h0 := hb b0 (by simp)
      have h1 := hb b1 (by simp)
      simp only [encodeB64, List.mem_cons, List.not_mem_nil, or_false]
      rintro s (rfl | rfl | rfl) <;> omega
  | case4 b0 b1 b2 rest ih =>
      have h0 := hb b0 (by simp)
      have h1 := hb b1 (by simp)
      have h2 := hb b2 (by simp)
      have hrest := ih (fun b hmem => hb b (by simp [hmem]))
      simp only [encodeB64, List.mem_cons]
      rintro s (rfl | rfl | rfl | rfl | hmem)
      · omega
      · omega
      · omega
      · omega
      · exact hrest s hmem

theorem sextetsToBytes_encodeB64 (bs : Bytes) (hb : ∀ b ∈ bs, b < 256) :
    sextetsToBytes (encodeB64 bs) = some bs := by
  induction bs using encodeB64.induct with
  | case1 => rfl
  | case2 b0 =>
      have := hb b0 (by simp)
      simp only [encodeB64, sextetsToBytes, Option.some.injEq, List.cons.injEq, and_true]
      omega
  | case3 b0 b1 =>
      have h0 := hb b0 (by simp)
      have h1 := hb b1 (by simp)
      simp only [encodeB64, sextetsToBytes, Option.some.injEq, List.cons.injEq, and_true]
      constructor <;> omega
  | case4 b0 b1 b2 rest ih =>
      have h0 := hb b0 (by simp)
      have h1 := hb b1 (by simp)
      have h2 := hb b2 (by simp)
      have hrest := ih (fun b hmem => hb b (by simp [hmem]))
      simp only [encodeB64, sextetsToBytes, hrest, Option.map_some', Option.some.injEq,
        List.cons.injEq, and_true]
      omega

theorem decodeB64Char_b64Char : ∀ s, s < 64 → decodeB64Char (b64Char s) = some s := by
  decide

theorem b64Char_ne_padding : ∀ s, s < 64 → b64Char s ≠ '=' := by decide

theorem isBase64UrlChar_b64Char : ∀ s, s < 64 → isBase64UrlChar (b64Char s) = true := by
  decide

theorem mapM_map_eq_some {α β : Type} (f : α → β) (g : β → Option α) (l : List α)
    (h : ∀ x ∈ l, g (f x) = some x) : (l.map f).mapM g = some l := by
  induction l with
  | nil => rfl
  | cons a t ih =>
      simp only [List.map_cons, List.mapM_cons, h a (by simp),
        ih (fun x hx => h x (by simp [hx]))]
      rfl

theorem toBase64Url_data (bs : Bytes) :
    (toBase64Url bs).data = (encodeB64 bs).map b64Char := rfl

theorem fromBase64_toBase64Url_aux (bs : Bytes) (hb : ∀ b ∈ bs, b < 256) :
    fromBase64 (toBase64Url bs) = some bs := by
  have hlt := encodeB64_lt_64 bs hb
  unfold fromBase64
  rw [toBase64Url_data]
  have htake : ((encodeB64 bs).map b64Char).takeWhile (fun c => c ≠ '=') =
      (encodeB64 bs).map b64Char := by
    rw [List.takeWhile_eq_self_iff]
    intro c hc
    obtain ⟨s, hs, rfl⟩ := List.mem_map.mp hc
    simpa using b64Char_ne_padding s (hlt s hs)
  rw [htake, mapM_map_eq_some b64Char decodeB64Char _
    (fun s hs => decodeB64Char_b64Char s (hlt s hs))]
  simpa using sextetsToBytes_encodeB64 bs hb

theorem toBase64Url_chars_aux (bs : Bytes) (hb : ∀ b ∈ bs, b < 256) :
    ∀ c ∈ (toBase64Url bs).data, isBase64UrlChar c = true := by
  intro c hc
  rw [toBase64Url_data] at hc
  obtain ⟨s, hs, rfl⟩ := List.mem_map.mp hc
  exact isBase64UrlChar_b64Char s (encodeB64_lt_64 bs hb s hs)

theorem toBase64Url_length_aux (bs : Bytes) :
    (toBase64Url bs).length = (4 * bs.length + 2) / 3 := by
  show ((encodeB64 bs).map b64Char).length = _
  rw [List.length_map, encodeB64_length]

theorem concrete_kmac_length : ∀ k m d p,
    (concretePrims.kmac256 k m d p).length = d := by
  intro k m d p
  simp [concretePrims]

theorem concrete_aead_roundtrip : ∀ k n a msg,
    concretePrims.aeadDecrypt k n a (concretePrims.aeadEncrypt k n a msg) =
      some msg := by
  intro k n a msg
  have hlen : (msg ++ cNativeTag k n a msg).length = msg.length + 16 := by
    simp [cNativeTag]
  simp only [concretePrims, hlen]
  rw [if_pos (by omega)]
  have hsub : msg.length + 16 - 16 = msg.length := by omega
  rw [hsub, List.take_left, List.drop_left, if_pos rfl]

theorem concrete_utf8_roundtrip : ∀ s,
    concretePrims.utf8Decode (concretePrims.utf8Encode s) = s := by
  intro s
  show String.mk ((s.data.map Char.toNat).map Char.ofNat) = s
  rw [List.map_map]
  have : (Char.ofNat ∘ Char.toNat) = id := funext fun c => Char.ofNat_toNat c
  rw [this, List.map_id]

theorem concrete_utf8_injective : Function.Injective concretePrims.utf8Encode :=
  Function.LeftInverse.injective concrete_utf8_roundtrip

theorem concrete_randomBytes_length : ∀ n,
    (concretePrims.randomBytes n).length = n := by
  intro n; simp [concretePrims]

theorem concrete_randomBytes_lt : ∀ n, ∀ x ∈ concretePrims.randomBytes n,
    x < 256 := by
  intro n x hx
  simp only [concretePrims, List.mem_map] at hx
  obtain ⟨i, _, rfl⟩ := hx
  exact Nat.mod_lt _ (by omega)

theorem concrete_verify_ideal : ∀ sk pk msg msg2,
    concretePrims.mlDsaVerify (concretePrims.mlDsaSign msg sk) msg2 pk =
      decide (msg = msg2) := by
  intro sk pk msg msg2
  show (msg == msg2) = decide (msg = msg2)
  by_cases h : msg = msg2 <;> simp [h]

/-! ## General lemmas about the AEAD engine -/

/-- Characterization of a successful `encryptMessage` call: the key/nonce
are the supplied ones (or freshly generated), the key passed the 32-byte
check, and the ciphertext is the robustness tag followed by the AEAD
ciphertext. -/
theorem encryptMessage_ok_elim (P : Prims) (m : Message) (aad : String)
    (ko no : Option Bytes) (c k n : Bytes)
    (h : encryptMessage P m aad ko no = .ok ⟨c, k, n⟩) :
    k = ko.getD (P.randomBytes KEY_SIZE) ∧
    n = no.getD (P.randomBytes NONCE_SIZE) ∧
    k.length = KEY_SIZE ∧
    c = computeRobustnessTag P k n
          (P.aeadEncrypt k n (P.utf8Encode aad) (messageToBytes P m)) aad ++
        P.aeadEncrypt k n (P.utf8Encode aad) (messageToBytes P m) := by
  simp only [encryptMessage] at h
  by_cases hk : (ko.getD (P.randomBytes KEY_SIZE)).length = KEY_SIZE
  · rw [if_neg (not_not_intro hk)] at h
    obtain ⟨hc, hkk, hnn⟩ : _ ∧ _ ∧ _ := by simpa using h
    subst hkk; subst hnn; subst hc
    exact ⟨rfl, rfl, hk, rfl⟩
  · rw [if_pos hk] at h
    exact absurd h (by simp)

/-- Whenever the received tag (first 32 bytes) differs from the recomputed
robustness tag, `decryptMessage` fails with the tag-mismatch error.  The
primitives record `P` is arbitrary, so in particular the result does not
depend on `P.aeadDecrypt`: the AEAD decryption step is never consulted. -/
theorem decryptMessage_mismatch (P : Prims) (sealed : Bytes) (aad : String)
    (key nonce : Bytes)
    (hne : sealed.take ROBUSTNESS_TAG_SIZE ≠
      computeRobustnessTag P key nonce (sealed.drop ROBUSTNESS_TAG_SIZE) aad) :
    decryptMessage P sealed aad key nonce = .error .tagMismatch := by
  have hbeq : (sealed.take ROBUSTNESS_TAG_SIZE ==
      computeRobustnessTag P key nonce (sealed.drop ROBUSTNESS_TAG_SIZE) aad) =
        false := beq_false_of_ne hne
  simp only [decryptMessage, equalBytes, hbeq]
  rfl

/-! ## Claim theorems -/

/-- C3: `encryptMessage(m, aad, key, nonce)` returns exactly
`kmac256(key, utf8(base64url(nonce) + base64url(aeadCiphertext) + aad),
dkLen 32, personalization "RobustnessTag-v1") ++ aeadCiphertext`, and
every sealed message a successful call returns is at least 32 bytes long
(the tag alone), whatever the plaintext. -/
theorem encryptMessage_layout_and_min_length (P : Prims)
    (hkmac : ∀ k2 m2 p, (P.kmac256 k2 m2 ROBUSTNESS_TAG_SIZE p).length =
      ROBUSTNESS_TAG_SIZE)
    (m : Message) (aad : String) (key nonce : Bytes)
    (hkey : key.length = 32) :
    encryptMessage P m aad (some key) (some nonce) =
      .ok ⟨P.kmac256 key
            (P.utf8Encode (toBase64Url nonce ++
              toBase64Url (P.aeadEncrypt key nonce (P.utf8Encode aad)
                (messageToBytes P m)) ++ aad))
            32 (P.utf8Encode "RobustnessTag-v1") ++
          P.aeadEncrypt key nonce (P.utf8Encode aad) (messageToBytes P m),
          key, nonce⟩ ∧
    (∀ ko no c k n, encryptMessage P m aad ko no = .ok ⟨c, k, n⟩ →
      32 ≤ c.length) := by
  constructor
  · simp only [encryptMessage, Option.getD_some]
    rw [if_neg (not_not_intro (by simpa [KEY_SIZE] using hkey))]
    rfl
  · intro ko no c k n h
    obtain ⟨-, -, -, hc⟩ := encryptMessage_ok_elim P m aad ko no c k n h
    subst hc
    rw [List.length_append]
    simp only [computeRobustnessTag]
    rw [hkmac]
    simp only [ROBUSTNESS_TAG_SIZE]
    omega

/-- Witness for C3: evaluating the minimum-length consequence at a
concrete encryption. -/
theorem encryptMessage_layout_and_min_length_witness :
    32 ≤ (computeRobustnessTag concretePrims (List.replicate 32 5)
        (List.replicate 24 9)
        (concretePrims.aeadEncrypt (List.replicate 32 5) (List.replicate 24 9)
          (concretePrims.utf8Encode "ad")
          (messageToBytes concretePrims (.str "Hi"))) "ad" ++
      concretePrims.aeadEncrypt (List.replicate 32 5) (List.replicate 24 9)
        (concretePrims.utf8Encode "ad")
        (messageToBytes concretePrims (.str "Hi"))).length :=
  (encryptMessage_layout_and_min_length concretePrims
      (fun k2 m2 p => concrete_kmac_length k2 m2 _ p)
      (.str "Hi") "ad" (List.replicate 32 5) (List.replicate 24 9)
      (by decide)).2
    (some (List.replicate 32 5)) (some (List.replicate 24 9)) _ _ _ rfl

/-- C4: a supplied key whose length is not 32 bytes makes `encryptMessage`
fail with the invalid-key-size error — for every primitives record, so
before any cryptographic work is consulted; with the key omitted, a fresh
32-byte key is generated, passes the validation, and the call never
fails. -/
theorem encryptMessage_key_validation (P : Prims) (m : Message)
    (aad : String) (no : Option Bytes) :
    (∀ key, key.length ≠ 32 →
      encryptMessage P m aad (some key) no = .error .invalidKeySize) ∧
    ((P.randomBytes 32).length = 32 →
      ∀ e, encryptMessage P m aad none no ≠ .error e) := by
  constructor
  · intro key hkey
    simp only [encryptMessage, Option.getD_some]
    rw [if_pos (by simpa [KEY_SIZE] using hkey)]
  · intro hgen e
    simp only [encryptMessage, Option.getD_none]
    rw [if_neg (not_not_intro (by simpa [KEY_SIZE] using hgen))]
    simp

/-- Witness for C4: a 16-byte key is rejected, while the omitted-key call
is not rejected. -/
theorem encryptMessage_key_validation_witness :
    encryptMessage concretePrims (.str "Hi") "ad" (some (List.replicate 16 0))
      none = .error .invalidKeySize ∧
    encryptMessage concretePrims (.str "Hi") "ad" none none ≠
      .error .invalidKeySize :=
  ⟨(encryptMessage_key_validation concretePrims (.str "Hi") "ad" none).1
      (List.replicate 16 0) (by decide),
   (encryptMessage_key_validation concretePrims (.str "Hi") "ad" none).2
      (concrete_randomBytes_length 32) .invalidKeySize⟩

/-- C10: any input to `decryptMessage` shorter than 32 bytes (the empty
sequence included) fails with the tag-mismatch error: the sliced tag is
shorter than the 32-byte recomputed KMAC-256 tag, so the comparison is an
inequality.  The primitives record is arbitrary, so the AEAD decryption
step is never consulted, and the list operations `take`/`drop` are total,
so no out-of-bounds access exists. -/
theorem decryptMessage_short_input (P : Prims)
    (hkmac : ∀ k2 m2 p, (P.kmac256 k2 m2 ROBUSTNESS_TAG_SIZE p).length =
      ROBUSTNESS_TAG_SIZE)
    (sealed : Bytes) (aad : String) (key nonce : Bytes)
    (hshort : sealed.length < 32) :
    decryptMessage P sealed aad key nonce = .error .tagMismatch := by
  apply decryptMessage_mismatch
  intro heq
  have hlen := congrArg List.length heq
  rw [List.length_take] at hlen
  have h32 : (computeRobustnessTag P key nonce
      (sealed.drop ROBUSTNESS_TAG_SIZE) aad).length = 32 :=
    hkmac key _ _
  rw [h32] at hlen
  simp only [ROBUSTNESS_TAG_SIZE] at hlen
  omega

/-- Witness for C10: the empty sealed message fails with tag-mismatch. -/
theorem decryptMessage_short_input_witness :
    decryptMessage concretePrims [] "ad" (List.replicate 32 5)
      (List.replicate 24 9) = .error .tagMismatch :=
  decryptMessage_short_input concretePrims
    (fun k2 m2 p => concrete_kmac_length k2 m2 _ p) [] "ad"
    (List.replicate 32 5) (List.replicate 24 9) (by decide)

/-- C1: decrypting the sealed message produced by any successful
`encryptMessage` call, with the same AAD and the key/nonce the call
returned, succeeds and yields the UTF-8 decoding of the message bytes; in
particular a string message is returned verbatim.  Assumes the documented
contracts of the trusted primitives: KMAC output length equals `dkLen`,
the AEAD cipher decrypts its own ciphertexts, and UTF-8 decoding inverts
encoding. -/
theorem decryptMessage_encryptMessage_roundtrip (P : Prims)
    (hkmac : ∀ k2 m2 p, (P.kmac256 k2 m2 ROBUSTNESS_TAG_SIZE p).length =
      ROBUSTNESS_TAG_SIZE)
    (haead : ∀ k2 n2 a2 msg, P.aeadDecrypt k2 n2 a2 (P.aeadEncrypt k2 n2 a2 msg) =
      some msg)
    (hutf8 : ∀ s, P.utf8Decode (P.utf8Encode s) = s)
    (m : Message) (aad : String) (ko no : Option Bytes) (c k n : Bytes)
    (henc : encryptMessage P m aad ko no = .ok ⟨c, k, n⟩) :
    decryptMessage P c aad k n = .ok (P.utf8Decode (messageToBytes P m)) ∧
    ∀ s, m = .str s → decryptMessage P c aad k n = .ok s := by
  obtain ⟨-, -, -, hc⟩ := encryptMessage_ok_elim P m aad ko no c k n henc
  set ct := P.aeadEncrypt k n (P.utf8Encode aad) (messageToBytes P m) with hct
  set tag := computeRobustnessTag P k n ct aad with htagdef
  have htaglen : tag.length = ROBUSTNESS_TAG_SIZE := hkmac k _ _
  have htake : (tag ++ ct).take ROBUSTNESS_TAG_SIZE = tag := by
    rw [← htaglen, List.take_left]
  have hdrop : (tag ++ ct).drop ROBUSTNESS_TAG_SIZE = ct := by
    rw [← htaglen, List.drop_left]
  have hmain : decryptMessage P c aad k n =
      .ok (P.utf8Decode (messageToBytes P m)) := by
    subst hc
    simp only [decryptMessage, equalBytes, htake, hdrop, ← htagdef, beq_self_eq_true,
      Bool.not_true, Bool.false_eq_true, if_false]
    rw [haead k n (P.utf8Encode aad) (messageToBytes P m)]
  exact ⟨hmain, fun s hs => by rw [hmain, hs]; exact congrArg Except.ok (hutf8 s)⟩

/-- Witness for C1: a concrete string round-trips through encryption and
decryption. -/
theorem decryptMessage_encryptMessage_roundtrip_witness :
    decryptMessage concretePrims
      (computeRobustnessTag concretePrims (List.replicate 32 5)
          (List.replicate 24 9)
          (concretePrims.aeadEncrypt (List.replicate 32 5) (List.replicate 24 9)
            (concretePrims.utf8Encode "ad")
            (messageToBytes concretePrims (.str "Hi"))) "ad" ++
        concretePrims.aeadEncrypt (List.replicate 32 5) (List.replicate 24 9)
          (concretePrims.utf8Encode "ad")
          (messageToBytes concretePrims (.str "Hi")))
      "ad" (List.replicate 32 5) (List.replicate 24 9) = .ok "Hi" :=
  (decryptMessage_encryptMessage_roundtrip concretePrims
      (fun k2 m2 p => concrete_kmac_length k2 m2 _ p)
      concrete_aead_roundtrip concrete_utf8_roundtrip (.str "Hi") "ad"
      (some (List.replicate 32 5)) (some (List.replicate 24 9)) _ _ _
      (by rfl)).2 "Hi" rfl

/-- C2: every input whose first 32 bytes differ from the robustness tag
recomputed over the supplied key, nonce, AAD and remaining bytes makes
`decryptMessage` fail with the tag-mismatch error; flipping any single
bit (bit `b` of byte `j < 32`) in the first 32 bytes of a sealed message
produced by `encryptMessage` does exactly that.  The primitives record is
arbitrary in both parts, so the result never depends on `P.aeadDecrypt`:
the AEAD decryption step is never executed on unverified input (its
constant-time execution is a timing property outside the functional
model). -/
theorem decryptMessage_tag_gate (P : Prims)
    (hkmac : ∀ k2 m2 p, (P.kmac256 k2 m2 ROBUSTNESS_TAG_SIZE p).length =
      ROBUSTNESS_TAG_SIZE) :
    (∀ sealed aad key nonce,
      sealed.take ROBUSTNESS_TAG_SIZE ≠
        computeRobustnessTag P key nonce (sealed.drop ROBUSTNESS_TAG_SIZE) aad →
      decryptMessage P sealed aad key nonce = .error .tagMismatch) ∧
    (∀ m aad ko no c k n j b, j < 32 → b < 8 →
      encryptMessage P m aad ko no = .ok ⟨c, k, n⟩ →
      decryptMessage P (flipByte c j (2 ^ b)) aad k n = .error .tagMismatch) := by
  refine ⟨fun sealed aad key nonce hne =>
    decryptMessage_mismatch P sealed aad key nonce hne, ?_⟩
  intro m aad ko no c k n j b hj _hb henc
  obtain ⟨-, -, -, hc⟩ := encryptMessage_ok_elim P m aad ko no c k n henc
  set ct := P.aeadEncrypt k n (P.utf8Encode aad) (messageToBytes P m) with hct
  set tag := computeRobustnessTag P k n ct aad with htagdef
  have htaglen : tag.length = ROBUSTNESS_TAG_SIZE := hkmac k _ _
  have hjlen : j < tag.length := by
    rw [htaglen]; simpa [ROBUSTNESS_TAG_SIZE] using hj
  have hgetd : (tag ++ ct).getD j 0 = tag.getD j 0 := by
    rw [List.getD_eq_getElem?_getD, List.getD_eq_getElem?_getD,
      List.getElem?_append_left hjlen]
  subst hc
  apply decryptMessage_mismatch
  unfold flipByte
  rw [List.set_append, if_pos hjlen, hgetd]
  have hsetlen : (tag.set j (tag.getD j 0 ^^^ 2 ^ b)).length = tag.length :=
    List.length_set tag j _
  rw [show ROBUSTNESS_TAG_SIZE = (tag.set j (tag.getD j 0 ^^^ 2 ^ b)).length by
      rw [hsetlen, htaglen],
    List.take_left, List.drop_left]
  intro heq
  rw [← htagdef] at heq
  have hj2 : j < (tag.set j (tag.getD j 0 ^^^ 2 ^ b)).length := by
    rw [hsetlen]; exact hjlen
  have hval := congrArg (fun l => l.getD j 0) heq
  simp only at hval
  rw [List.getD_eq_getElem _ _ hj2, List.getElem_set_self] at hval
  have h0 : (2 : Nat) ^ b = 0 := by
    have h2 := congrArg (fun y => tag.getD j 0 ^^^ y) hval
    simp only [← Nat.xor_assoc, Nat.xor_self, Nat.zero_xor] at h2
    exact h2
  exact absurd h0 (Nat.pos_iff_ne_zero.mp (pow_pos (by norm_num) b))

/-- Witness for C2: flipping bit 0 of byte 0 of a concrete sealed message
yields the tag-mismatch error. -/
theorem decryptMessage_tag_gate_witness :
    decryptMessage concretePrims
      (flipByte
        (computeRobustnessTag concretePrims (List.replicate 32 5)
            (List.replicate 24 9)
            (concretePrims.aeadEncrypt (List.replicate 32 5)
              (List.replicate 24 9) (concretePrims.utf8Encode "ad")
              (messageToBytes concretePrims (.str "Hi"))) "ad" ++
          concretePrims.aeadEncrypt (List.replicate 32 5) (List.replicate 24 9)
            (concretePrims.utf8Encode "ad")
            (messageToBytes concretePrims (.str "Hi")))
        0 (2 ^ 0))
      "ad" (List.replicate 32 5) (List.replicate 24 9) =
      .error .tagMismatch :=
  (decryptMessage_tag_gate concretePrims
      (fun k2 m2 p => concrete_kmac_length k2 m2 _ p)).2
    (.str "Hi") "ad" (some (List.replicate 32 5)) (some (List.replicate 24 9))
    _ _ _ 0 0 (by decide) (by decide) (by rfl)

/-- C5 counterexample: `decryptMessage` with a 23-byte nonce does not
fail with an input-validation error before cryptographic work runs — it
performs the KMAC computation and fails with the tag-mismatch integrity
error.  The layer's error type has no nonce-length variant at all,
because `aead.ts` contains no nonce-length check. -/
theorem nonce_length_not_validated_cex :
    (List.replicate 23 0).length ≠ NONCE_SIZE ∧
    decryptMessage concretePrims (List.replicate 40 1) "ad"
      (List.replicate 32 0) (List.replicate 23 0) = .error .tagMismatch :=
  ⟨by decide, by decide⟩

/-- C5 amended: `decryptMessage` performs no nonce-length validation of
its own.  With any nonce — in particular one whose length is not 24 —
it fails with the tag-mismatch integrity error, after the KMAC
computation, whenever the recomputed tag differs from the received one;
the underlying cipher (whose own construction-time nonce validation
lives inside the library, outside this layer) is never reached on that
path.  The statement holds for an arbitrary primitives record, so it is
independent of the cipher fields. -/
theorem nonce_length_not_validated (P : Prims) (sealed : Bytes)
    (aad : String) (key nonce : Bytes) (_hnonce : nonce.length ≠ NONCE_SIZE)
    (hne : sealed.take ROBUSTNESS_TAG_SIZE ≠
      computeRobustnessTag P key nonce (sealed.drop ROBUSTNESS_TAG_SIZE) aad) :
    decryptMessage P sealed aad key nonce = .error .tagMismatch :=
  decryptMessage_mismatch P sealed aad key nonce hne

/-- Witness for the amended C5: a concrete 25-byte nonce. -/
theorem nonce_length_not_validated_witness :
    decryptMessage concretePrims (List.replicate 33 2) "ad"
      (List.replicate 32 0) (List.replicate 25 0) = .error .tagMismatch :=
  nonce_length_not_validated concretePrims (List.replicate 33 2) "ad"
    (List.replicate 32 0) (List.replicate 25 0) (by decide) (by decide)

/-- C6: for an idealized signature scheme (verification succeeds exactly
on the signed message for the matching key pair) and injective UTF-8
encoding, `verifySignature` accepts the signature `sign` produced for the
same content and context, and rejects it under any different context; the
signed message is the UTF-8 encoding of the context string concatenated
immediately before the canonical content string with no separator. -/
theorem sign_verify_context_separation (P : Prims) (sk pk : Bytes)
    (hideal : ∀ msg msg2,
      P.mlDsaVerify (P.mlDsaSign msg sk) msg2 pk = decide (msg = msg2))
    (hinj : Function.Injective P.utf8Encode)
    (content : Content) (ctx ctx2 ser : String)
    (hcanon : P.canonicalize content = some ser) :
    sign P content ctx sk = .ok (P.mlDsaSign (P.utf8Encode (ctx ++ ser)) sk) ∧
    verifySignature P content ctx
      (P.mlDsaSign (P.utf8Encode (ctx ++ ser)) sk) pk = true ∧
    (ctx2 ≠ ctx →
      verifySignature P content ctx2
        (P.mlDsaSign (P.utf8Encode (ctx ++ ser)) sk) pk = false) := by
  refine ⟨by simp [sign, hcanon], by simp [verifySignature, hcanon, hideal], ?_⟩
  intro hne
  simp only [verifySignature, hcanon]
  rw [hideal]
  apply decide_eq_false
  intro habs
  apply hne
  have hcat := hinj habs
  have hdata := congrArg String.data hcat
  rw [String.data_append, String.data_append] at hdata
  exact (String.ext (List.append_cancel_right hdata)).symm

/-- Witness for C6: a concrete content signed under `"MyApp:v1"` verifies
under `"MyApp:v1"` and fails under `"MyApp:v2"`. -/
theorem sign_verify_context_separation_witness :
    verifySignature concretePrims [("id", CVal.str "123")] "MyApp:v1"
      (concretePrims.mlDsaSign
        (concretePrims.utf8Encode ("MyApp:v1" ++ "1")) []) [] = true ∧
    verifySignature concretePrims [("id", CVal.str "123")] "MyApp:v2"
      (concretePrims.mlDsaSign
        (concretePrims.utf8Encode ("MyApp:v1" ++ "1")) []) [] = false :=
  ⟨(sign_verify_context_separation concretePrims [] []
      (concrete_verify_ideal [] []) concrete_utf8_injective
      [("id", CVal.str "123")] "MyApp:v1" "MyApp:v2" "1" (by decide)).2.1,
   (sign_verify_context_separation concretePrims [] []
      (concrete_verify_ideal [] []) concrete_utf8_injective
      [("id", CVal.str "123")] "MyApp:v1" "MyApp:v2" "1" (by decide)).2.2
     (by decide)⟩

/-- C7 counterexample: content containing `NaN` — a valid
`Record<string, string | number>` value — makes the `canonicalize`
package throw; `verifySignature` contains no catch, so the call raises
instead of returning `false`. -/
theorem verifySignature_raises_cex :
    verifySignatureCall concretePrims [("amount", CVal.nan)] "MyApp:v1"
      [] (List.replicate ML_DSA_87_PUBLIC_KEY_SIZE 0) =
      .error .canonicalizeNonFinite := by
  decide

/-- C7 amended: `verifySignature`'s own code collapses the failure modes
it sees into `false` — a non-string canonicalization result returns
`false` — but it catches nothing, so its callees' exceptions propagate:
content containing a non-finite number raises the canonicalize
package's exception before any verification, and a wrong-length public
key raises `ml_dsa87.verify`'s exception; on inputs free of both
(finite values, 2592-byte public key) the call never raises and returns
the `verifySignature` boolean. -/
theorem verifySignature_no_catch (P : Prims) (content : Content)
    (ctx : String) (sig pk : Bytes) :
    (content.any (fun kv => kv.2.isNonFinite) = false →
      pk.length = ML_DSA_87_PUBLIC_KEY_SIZE →
      verifySignatureCall P content ctx sig pk =
        .ok (verifySignature P content ctx sig pk)) ∧
    (P.canonicalize content = none →
      verifySignature P content ctx sig pk = false) ∧
    (content.any (fun kv => kv.2.isNonFinite) = true →
      verifySignatureCall P content ctx sig pk =
        .error .canonicalizeNonFinite) ∧
    (∀ ser, content.any (fun kv => kv.2.isNonFinite) = false →
      P.canonicalize content = some ser →
      pk.length ≠ ML_DSA_87_PUBLIC_KEY_SIZE →
      verifySignatureCall P content ctx sig pk =
        .error .invalidPublicKeySize) := by
  refine ⟨fun hnf hpk => ?_, fun h => ?_, fun hnf => ?_, fun ser hnf hcc hpk => ?_⟩
  · simp only [verifySignatureCall, hnf, Bool.false_eq_true, if_false]
    cases hcc : P.canonicalize content with
    | none => simp [verifySignature, hcc]
    | some ser => simp [verifySignature, hcc, hpk]
  · simp [verifySignature, h]
  · simp [verifySignatureCall, hnf]
  · simp [verifySignatureCall, hnf, hcc, hpk]

/-- Witness for the amended C7: an exception-free content/key pair
returns the boolean, and a non-string canonicalization result returns
`false`. -/
theorem verifySignature_no_catch_witness :
    verifySignatureCall concretePrims [("id", CVal.str "123")] "MyApp:v1" []
      (List.replicate ML_DSA_87_PUBLIC_KEY_SIZE 0) =
      .ok (verifySignature concretePrims [("id", CVal.str "123")] "MyApp:v1"
        [] (List.replicate ML_DSA_87_PUBLIC_KEY_SIZE 0)) ∧
    verifySignature concretePrims [] "MyApp:v1" [] [] = false :=
  ⟨(verifySignature_no_catch concretePrims [("id", CVal.str "123")] "MyApp:v1"
      [] (List.replicate ML_DSA_87_PUBLIC_KEY_SIZE 0)).1 (by decide) (by simp),
   (verifySignature_no_catch concretePrims [] "MyApp:v1" [] []).2.1 (by decide)⟩

/-- C8: for every byte sequence, decoding the URL-safe unpadded encoding
returns the original bytes, and the encoded string only contains
characters of the `[A-Za-z0-9_-]` alphabet (no padding character). -/
theorem toBase64Url_fromBase64_roundtrip (b : Bytes)
    (hb : ∀ x ∈ b, x < 256) :
    fromBase64 (toBase64Url b) = some b ∧
    ∀ c ∈ (toBase64Url b).data, isBase64UrlChar c = true :=
  ⟨fromBase64_toBase64Url_aux b hb, toBase64Url_chars_aux b hb⟩

/-- Witness for C8: a concrete round-trip. -/
theorem toBase64Url_fromBase64_roundtrip_witness :
    fromBase64 (toBase64Url [0, 127, 255, 7]) = some [0, 127, 255, 7] :=
  (toBase64Url_fromBase64_roundtrip [0, 127, 255, 7] (by decide)).1

/-- C9: `generateId n` is the URL-safe base64 encoding of
`getRandomBytes n`; the default call (24 bytes) yields a 32-character
string over `[A-Za-z0-9_-]`; `generateId 0` is the empty string; and
`getRandomBytes 0` is the empty byte sequence.  Assumes the OS random
source's contract: `randomBytes n` returns `n` bytes. -/
theorem generateId_spec (P : Prims)
    (hlen : ∀ n2, (P.randomBytes n2).length = n2)
    (hlt : ∀ n2, ∀ x ∈ P.randomBytes n2, x < 256) :
    (∀ n2, generateId P n2 = toBase64Url (getRandomBytes P n2)) ∧
    (generateId P ID_BYTES_LENGTH).length = 32 ∧
    (∀ c ∈ (generateId P ID_BYTES_LENGTH).data, isBase64UrlChar c = true) ∧
    generateId P 0 = "" ∧
    getRandomBytes P 0 = [] := by
  have h0 : getRandomBytes P 0 = [] := List.length_eq_zero.mp (hlen 0)
  refine ⟨fun n2 => rfl, ?_, ?_, ?_, h0⟩
  · show (toBase64Url (getRandomBytes P ID_BYTES_LENGTH)).length = 32
    rw [toBase64Url_length_aux,
      show (getRandomBytes P ID_BYTES_LENGTH).length = 24 from hlen 24]
  · exact toBase64Url_chars_aux _ (hlt ID_BYTES_LENGTH)
  · show toBase64Url (getRandomBytes P 0) = ""
    rw [h0]
    decide

/-- Witness for C9: the toy random source. -/
theorem generateId_spec_witness :
    generateId concretePrims 0 = "" ∧
    (generateId concretePrims ID_BYTES_LENGTH).length = 32 :=
  ⟨(generateId_spec concretePrims concrete_randomBytes_length
      concrete_randomBytes_lt).2.2.2.1,
   (generateId_spec concretePrims concrete_randomBytes_length
      concrete_randomBytes_lt).2.1⟩

end Inkrypt
